import Mathlib

/-!
Verification of the scenetree workspace (`src/scenetree/workspace.py`).

The geometric data is embedded over `ℚ` (the Python code computes with IEEE
doubles; exact rational arithmetic is the idealisation of its real-number
semantics, so "equal within floating tolerance" is rendered as equality).

Vectors are `Fin 3 → ℚ`, matrices are Mathlib matrices.  The scipy routine
`Rotation.align_vectors` used by `Configuration.best_fit_points` is an
external library; per its documentation and the spec (§4.3 step 5) it
computes the Kabsch / orthogonal-Procrustes rotation from the cross
covariance matrix of the two centred clouds, so it is modelled as an
abstract function `solve : Mat3 → Mat3` of that covariance matrix, and the
theorems that need its output pose the spec's least-squares optimality as a
hypothesis on the returned rotation.
-/

set_option maxRecDepth 10000

open scoped Matrix

abbrev Vec3 := Fin 3 → ℚ

abbrev Mat3 := Matrix (Fin 3) (Fin 3) ℚ

abbrev Mat4 := Matrix (Fin 4) (Fin 4) ℚ

/-- Embeds `np.mean(axis=0)` over a list of 3-vectors (`best_fit_points`, lines 275-276). -/
def centroid (ps : List Vec3) : Vec3 :=
  fun i => (ps.map (fun v => v i)).sum / ps.length

/-- Squared euclidean norm. -/
def normSq (v : Vec3) : ℚ := v ⬝ᵥ v

/-- The cross product on rational 3-vectors (used to state non-collinearity). -/
def crossV (u v : Vec3) : Vec3 :=
  ![u 1 * v 2 - u 2 * v 1, u 2 * v 0 - u 0 * v 2, u 0 * v 1 - u 1 * v 0]

/-- Membership of `SO(3)`: orthogonal with determinant one. -/
def IsRotation (R : Mat3) : Prop := Rᵀ * R = 1 ∧ R.det = 1

/-- Sum of squared residuals `∑ ‖q − R·p‖²` over a list of (p, q) pairs. -/
def residualSq (R : Mat3) (pairs : List (Vec3 × Vec3)) : ℚ :=
  (pairs.map (fun pq => normSq (pq.2 - R *ᵥ pq.1))).sum

/-- Modelled from the spec: `scipy.spatial.transform.Rotation.align_vectors`
(not part of this repository) returns the rotation minimising the sum of
squared residuals between the centred clouds (spec §4.3 step 5, Kabsch /
orthogonal Procrustes, no scaling or reflection). -/
def KabschOptimal (R : Mat3) (centered : List (Vec3 × Vec3)) : Prop :=
  IsRotation R ∧ ∀ S, IsRotation S → residualSq R centered ≤ residualSq S centered

/-- Centre both clouds on their centroids (`best_fit_points`, lines 279-280). -/
def centeredPairs (pairs : List (Vec3 × Vec3)) : List (Vec3 × Vec3) :=
  let fc := centroid (pairs.map Prod.fst)
  let tc := centroid (pairs.map Prod.snd)
  pairs.map (fun pq => (pq.1 - fc, pq.2 - tc))

/-- Cross-covariance matrix `∑ to_i ⊗ from_i` of the centred pairs: the input
from which the Kabsch rotation is computed. -/
def covMatrix (centered : List (Vec3 × Vec3)) : Mat3 :=
  (centered.map (fun pq => Matrix.vecMulVec pq.2 pq.1)).sum

/-- Assembly of the 4×4 homogeneous transform (`best_fit_points`, lines 288-290):
`T[:3,:3] = R`, `T[:3,3] = t`, last row `[0,0,0,1]`. -/
def assembleTransform (R : Mat3) (t : Vec3) : Mat4 :=
  Matrix.of
    ![![R 0 0, R 0 1, R 0 2, t 0],
      ![R 1 0, R 1 1, R 1 2, t 1],
      ![R 2 0, R 2 1, R 2 2, t 2],
      ![0, 0, 0, 1]]

/-- The 3×3 rotation block `T[:3,:3]` of a 4×4 homogeneous transform. -/
def rotOf (T : Mat4) : Mat3 := fun i j => T i.castSucc j.castSucc

/-- The translation column `T[:3,3]` of a 4×4 homogeneous transform. -/
def transOf (T : Mat4) : Vec3 := fun i => T i.castSucc 3

/-- Embeds `Configuration.best_fit_points`, lines 274-290, on the identity-paired
coordinate lists (`from_points[i]`, `to_points[i]`): compute both centroids,
centre the clouds, obtain the rotation from the solver, and assemble
`T = [R, to_centroid − R·from_centroid; 0 0 0 1]`. -/
def bestFitPairs (solve : Mat3 → Mat3) (pairs : List (Vec3 × Vec3)) : Mat4 :=
  let fc := centroid (pairs.map Prod.fst)
  let tc := centroid (pairs.map Prod.snd)
  let R := solve (covMatrix (centeredPairs pairs))
  assembleTransform R (tc - R *ᵥ fc)

theorem rotOf_assembleTransform (R : Mat3) (t : Vec3) :
    rotOf (assembleTransform R t) = R := by
  funext i j
  fin_cases i <;> fin_cases j <;> rfl

theorem transOf_assembleTransform (R : Mat3) (t : Vec3) :
    transOf (assembleTransform R t) = t := by
  funext i
  fin_cases i <;> rfl

theorem centroid_perm {l₁ l₂ : List Vec3} (h : l₁.Perm l₂) :
    centroid l₁ = centroid l₂ := by
  funext i
  unfold centroid
  rw [(h.map (fun v => v i)).sum_eq, h.length_eq]

theorem covMatrix_perm {l₁ l₂ : List (Vec3 × Vec3)} (h : l₁.Perm l₂) :
    covMatrix l₁ = covMatrix l₂ := by
  unfold covMatrix
  exact (h.map (fun pq => Matrix.vecMulVec pq.2 pq.1)).sum_eq

/-- C5 core step: every stage of `best_fit_points` after the pairing is a
function of the multiset of pairs only. -/
theorem bestFitPairs_perm (solve : Mat3 → Mat3) {p₁ p₂ : List (Vec3 × Vec3)}
    (h : p₁.Perm p₂) : bestFitPairs solve p₁ = bestFitPairs solve p₂ := by
  have hf : centroid (p₁.map Prod.fst) = centroid (p₂.map Prod.fst) :=
    centroid_perm (h.map Prod.fst)
  have ht : centroid (p₁.map Prod.snd) = centroid (p₂.map Prod.snd) :=
    centroid_perm (h.map Prod.snd)
  have hc : covMatrix (centeredPairs p₁) = covMatrix (centeredPairs p₂) := by
    unfold centeredPairs
    rw [hf, ht]
    exact covMatrix_perm (h.map _)
  unfold bestFitPairs
  rw [hf, ht, hc]

/-! ## Scenes, workspace data, and the transform graph -/

/-- First-match association lookup: Python `dict` access on our list model. -/
def alookup {α : Type} : List (String × α) → String → Option α
  | [], _ => none
  | e :: l, k => if e.1 = k then some e.2 else alookup l k

/-- Python `key in dict`. -/
def hasKey {α : Type} (l : List (String × α)) (k : String) : Bool :=
  (alookup l k).isSome

/-- The object model: `skspatial` `Point`, `Points`, or any other
(unsupported) object kind carried opaquely. -/
inductive SceneObj where
  | point (p : Vec3)
  | pointSet (ps : List Vec3)
  | unsupported (kind : String)
deriving DecidableEq

/-- A scene's data dict: object identity → object. -/
abbrev SceneData := List (String × SceneObj)

/-- Embeds `Workspace._scenes`: scene name → scene data dict. -/
abbrev WorkspaceScenes := List (String × SceneData)

/-- Embeds `Scene.get_mean_points` (lines 138-151): mean position of every
`Point`/`Points` entry, other kinds silently omitted. -/
def get_mean_points (data : SceneData) : List (String × Vec3) :=
  data.filterMap fun io =>
    match io.2 with
    | .point p => some (io.1, p)
    | .pointSet ps => some (io.1, centroid ps)
    | .unsupported _ => none

/-- A directed transform edge `(from_scene, to_scene, T)`. -/
abbrev TEdge := String × String × Mat4

/-- Modelled from the spec: the state of pytransform3d's `TransformManager`
(an external library, spec §3 "Transform Edge"): a directed edge-labelled
graph over scene names holding exactly one transform per directed pair. -/
abbrev TManager := List TEdge

/-- Modelled from the spec: `TransformManager.add_transform` — insert or
overwrite the unique edge for the directed pair `(u, v)`. -/
def add_transform (tm : TManager) (u v : String) (T : Mat4) : TManager :=
  (u, v, T) :: tm.filter fun e => !(e.1 == u && e.2.1 == v)

/-- The stored payload of the directed edge `(u, v)`, if present. -/
def findDirect (tm : TManager) (u v : String) : Option Mat4 :=
  (tm.find? fun e => e.1 == u && e.2.1 == v).map fun e => e.2.2

/-- Executable matrix inverse over `ℚ` (`inv4_eq_inv` below shows it agrees
with Mathlib's `T⁻¹`, including on singular input where both are junk). -/
def inv4 (T : Mat4) : Mat4 := T.det⁻¹ • T.adjugate

theorem inv4_eq_inv (T : Mat4) : inv4 T = T⁻¹ := by
  rw [inv4, Matrix.inv_def, Ring.inverse_eq_inv]

/-- Undirected adjacency: an edge traversed against its stored direction
contributes its inverse (spec §4.3 `get_transform`). -/
def neighborsOf (tm : TManager) (u : String) : List (String × Mat4) :=
  tm.filterMap fun e =>
    if e.1 = u then some (e.2.1, e.2.2)
    else if e.2.1 = u then some (e.1, inv4 e.2.2)
    else none

/-- Modelled from the spec: acyclic path search from `u` to `target`
composing the hop transforms in path order, `T_total = T_last · … · T_first`
(spec §4.3); fuel bounds the recursion depth by the graph size. -/
def searchPath (tm : TManager) (target : String) :
    Nat → List String → String → Option Mat4
  | 0, _, _ => none
  | fuel + 1, visited, u =>
    if u = target then some 1
    else
      (neighborsOf tm u).findSome? fun nb =>
        if nb.1 ∈ visited then none
        else (searchPath tm target fuel (u :: visited) nb.1).map fun S => S * nb.2

/-- Modelled from the spec: `TransformManager.get_transform` (external
library; spec §4.3): return the direct edge if stored, else the inverse of
the reverse edge if stored, else a composed transform along a path, else
fail (`none`). -/
def get_transform (tm : TManager) (u v : String) : Option Mat4 :=
  match findDirect tm u v with
  | some T => some T
  | none =>
    match findDirect tm v u with
    | some S => some (inv4 S)
    | none => searchPath tm v (tm.length + 1) [] u

/-- The error taxonomy best-fit can hit: Python `KeyError` (missing scene)
and `ValueError` for fewer than 3 shared points (spec: InsufficientData). -/
inductive WsError where
  | keyError (name : String)
  | insufficientData (found : Nat)
deriving DecidableEq

/-- Embeds `best_fit_points` lines 260-264: the shared identity set — intersection
of both mean-point key sets, optionally narrowed to `object_ids`.  The list
is deduplicated so its length is the cardinality of the set; its order
stands for the unspecified Python set iteration order. -/
def sharedIds (fm tm : List (String × Vec3)) : Option (List String) → List String
  | none => ((fm.map Prod.fst).filter fun i => hasKey tm i).dedup
  | some ids => ((fm.map Prod.fst).filter fun i => hasKey tm i && ids.contains i).dedup

/-- Embeds `best_fit_points` lines 270-272: the identity-paired coordinate lists,
in the given iteration order of the shared identities. -/
def pairsOf (fm tm : List (String × Vec3)) (order : List String) : List (Vec3 × Vec3) :=
  order.filterMap fun i => (alookup fm i).bind fun p => (alookup tm i).map fun q => (p, q)

/-- Embeds `Configuration.best_fit_points` (lines 227-295): look up both scenes
(Python `KeyError` when missing), take mean positions, intersect the
identity sets, fail with InsufficientData when fewer than 3 shared
identities remain, else compute the best-fit transform and store it in the
configuration. -/
def best_fit_points (solve : Mat3 → Mat3) (ws : WorkspaceScenes) (cfg : TManager)
    (fromScene toScene : String) (objectIds : Option (List String)) :
    Except WsError (Mat4 × TManager) :=
  match alookup ws fromScene with
  | none => .error (.keyError fromScene)
  | some fdata =>
    match alookup ws toScene with
    | none => .error (.keyError toScene)
    | some tdata =>
      let fm := get_mean_points fdata
      let tm := get_mean_points tdata
      let shared := sharedIds fm tm objectIds
      if shared.length < 3 then .error (.insufficientData shared.length)
      else
        let T := bestFitPairs solve (pairsOf fm tm shared)
        .ok (T, add_transform cfg fromScene toScene T)

/-! ## Association-list lemmas -/

theorem alookup_isSome_of_mem {α : Type} {l : List (String × α)} {i : String}
    (h : i ∈ l.map Prod.fst) : (alookup l i).isSome = true := by
  induction l with
  | nil => simp at h
  | cons e l ih =>
    by_cases he : e.1 = i
    · simp [alookup, he]
    · simp only [List.map_cons, List.mem_cons] at h
      rcases h with h | h
    
      · exact absurd h.symm he
      · simp only [alookup, if_neg he]
        exact ih h

theorem contains_eq_decide_mem (l : List String) (a : String) :
    l.contains a = decide (a ∈ l) := by
  induction l with
  | nil => simp
  | cons b l ih =>
    by_cases hb : a = b <;> simp [List.contains_cons, hb, ih]

theorem findDirect_add_transform (cfg : TManager) (u v : String) (T : Mat4) :
    findDirect (add_transform cfg u v T) u v = some T := by
  simp [findDirect, add_transform, List.find?]

/-! ## C5: best-fit order independence -/

/-- C5: for scenes' mean-position maps `fm`, `tm`, the transform computed by
`best_fit_points` is identical for every iteration order of the shared
identity set: permuting the order permutes both identity-paired coordinate
lists identically, and the result is invariant under that permutation. -/
theorem best_fit_points_order_independent (solve : Mat3 → Mat3)
    (fm tm : List (String × Vec3)) {o₁ o₂ : List String} (h : o₁.Perm o₂) :
    bestFitPairs solve (pairsOf fm tm o₁) = bestFitPairs solve (pairsOf fm tm o₂) :=
  bestFitPairs_perm solve (h.filterMap _)

/-- Concrete mean-position maps used by witnesses (the point layout of
`test_best_fit_translation_only`). -/
def fmW : List (String × Vec3) :=
  [("p1", ![0, 0, 0]), ("p2", ![1, 0, 0]), ("p3", ![0, 1, 0])]

def tmW : List (String × Vec3) :=
  [("p1", ![10, 20, 30]), ("p2", ![11, 20, 30]), ("p3", ![10, 21, 30])]

theorem best_fit_points_order_independent_witness :
    (["p1", "p2", "p3"] : List String).Perm ["p3", "p1", "p2"] ∧
    bestFitPairs (fun _ => 1) (pairsOf fmW tmW ["p1", "p2", "p3"]) =
      bestFitPairs (fun _ => 1) (pairsOf fmW tmW ["p3", "p1", "p2"]) :=
  ⟨by decide, best_fit_points_order_independent (fun _ => 1) fmW tmW (by decide)⟩

/-! ## C4: insufficient shared correspondences -/

/-- C4: for existing scenes, `best_fit_points` fails with the
InsufficientData error exactly when the shared identity set (after any
caller-supplied narrowing) has fewer than 3 elements, and succeeds —
computing, storing and returning the transform — when 3 or more remain. -/
theorem best_fit_insufficient_iff (solve : Mat3 → Mat3) (ws : WorkspaceScenes)
    (cfg : TManager) (f t : String) (ids : Option (List String))
    (fd td : SceneData) (s : List String)
    (hf : alookup ws f = some fd) (ht : alookup ws t = some td)
    (hs : s = sharedIds (get_mean_points fd) (get_mean_points td) ids) :
    (best_fit_points solve ws cfg f t ids = .error (.insufficientData s.length) ↔
      s.length < 3)
    ∧ (3 ≤ s.length →
        ∃ T, best_fit_points solve ws cfg f t ids = .ok (T, add_transform cfg f t T) ∧
          findDirect (add_transform cfg f t T) f t = some T) := by
  subst hs
  by_cases h3 :
      (sharedIds (get_mean_points fd) (get_mean_points td) ids).length < 3
  · constructor
    · simp [best_fit_points, hf, ht, h3]
    · intro hge
      omega
  · constructor
    · simp [best_fit_points, hf, ht, h3]
    · intro _
      refine ⟨bestFitPairs solve
          (pairsOf (get_mean_points fd) (get_mean_points td)
            (sharedIds (get_mean_points fd) (get_mean_points td) ids)),
        ?_, findDirect_add_transform cfg f t _⟩
      simp [best_fit_points, hf, ht, h3]

/-- Scene data of `test_best_fit_insufficient_points_raises` (2 shared points). -/
def aDataW : SceneData := [("p1", .point ![0, 0, 0]), ("p2", .point ![1, 0, 0])]

theorem best_fit_insufficient_iff_witness :
    best_fit_points (fun _ => 1) [("a", aDataW), ("b", aDataW)] [] "a" "b" none =
      .error (.insufficientData 2) :=
  (best_fit_insufficient_iff (fun _ => 1) [("a", aDataW), ("b", aDataW)] [] "a" "b"
    none aDataW aDataW ["p1", "p2"] (by decide) (by decide) (by decide)).1.mpr
    (by decide)

/-! ## C9: unknown object_ids are silently dropped -/

theorem sharedIds_filter_ids (fm tm : List (String × Vec3)) (ids : List String) :
    sharedIds fm tm (some ids) =
      sharedIds fm tm (some (ids.filter fun i => hasKey fm i && hasKey tm i)) := by
  simp only [sharedIds]
  congr 1
  apply List.filter_congr
  intro i hi
  by_cases htm : hasKey tm i
  · have hfm : hasKey fm i := alookup_isSome_of_mem hi
    simp only [htm, Bool.true_and]
    rw [contains_eq_decide_mem, contains_eq_decide_mem]
    simp only [List.mem_filter, decide_eq_decide, Bool.and_eq_true]
    exact Iff.symm (and_iff_left_of_imp fun _ => ⟨hfm, htm⟩)
  · simp [htm]

/-- C9: for existing scenes, `object_ids` entries absent from either scene's
mean-position map never raise a lookup error: they are dropped by the
intersection (the call behaves exactly as if they had been filtered away),
and the only possible failure is InsufficientData when fewer than 3
identities survive. -/
theorem best_fit_ids_silently_dropped (solve : Mat3 → Mat3) (ws : WorkspaceScenes)
    (cfg : TManager) (f t : String) (ids : List String) (fd td : SceneData)
    (hf : alookup ws f = some fd) (ht : alookup ws t = some td) :
    best_fit_points solve ws cfg f t (some ids) =
      best_fit_points solve ws cfg f t
        (some (ids.filter fun i =>
          hasKey (get_mean_points fd) i && hasKey (get_mean_points td) i))
    ∧ ∀ e, best_fit_points solve ws cfg f t (some ids) = .error e →
        ∃ k, e = .insufficientData k ∧ k < 3 := by
  constructor
  · simp only [best_fit_points, hf, ht]
    rw [sharedIds_filter_ids]
  · intro e he
    simp only [best_fit_points, hf, ht] at he
    split at he
    · rename_i hlt
      exact ⟨_, (Except.error.injEq _ _).mp he.symm ▸ rfl, hlt⟩
    · exact absurd he (by simp)

/-- Scene data of `test_best_fit_translation_only` (3 shared points, pure
translation by (10, 20, 30)). -/
def aPointsW : SceneData :=
  [("p1", .point ![0, 0, 0]), ("p2", .point ![1, 0, 0]), ("p3", .point ![0, 1, 0])]

def bPointsW : SceneData :=
  [("p1", .point ![10, 20, 30]), ("p2", .point ![11, 20, 30]),
   ("p3", .point ![10, 21, 30])]

theorem best_fit_ids_silently_dropped_witness :
    best_fit_points (fun _ => 1) [("a", aPointsW), ("b", bPointsW)] [] "a" "b"
        (some ["p1", "p2", "p3", "zz"]) =
      best_fit_points (fun _ => 1) [("a", aPointsW), ("b", bPointsW)] [] "a" "b"
        (some (["p1", "p2", "p3", "zz"].filter fun i =>
          hasKey (get_mean_points aPointsW) i && hasKey (get_mean_points bPointsW) i)) :=
  (best_fit_ids_silently_dropped (fun _ => 1) [("a", aPointsW), ("b", bPointsW)] []
    "a" "b" ["p1", "p2", "p3", "zz"] aPointsW bPointsW (by decide) (by decide)).1

/-! ## C2, C3: path composition and inverse consistency -/

/-- A pure-translation homogeneous transform. -/
def translate4 (x y z : ℚ) : Mat4 :=
  Matrix.of ![![1, 0, 0, x], ![0, 1, 0, y], ![0, 0, 1, z], ![0, 0, 0, 1]]

/-- The chain configuration of `test_get_chained_transform`: exactly the two
edges `a→b` and `b→c`. -/
def cfgChain (Tab Tbc : Mat4) : TManager :=
  add_transform (add_transform [] "b" "c" Tbc) "a" "b" Tab

theorem translate4_mul (x y z a b c : ℚ) :
    translate4 x y z * translate4 a b c = translate4 (x + a) (y + b) (z + c) := by
  ext i j
  fin_cases i <;> fin_cases j <;>
      simp [translate4, Matrix.mul_apply, Fin.sum_univ_four, Matrix.vecHead,
        Matrix.vecTail] <;>
    ring

/-- C2 counterexample: a configuration that stores edges `a→b` and `b→c`
(so A, B, C are pairwise connected) **and** a conflicting direct edge `a→c`
carrying the identity.  `get_transform` returns the stored direct edge, so
`get_transform(a,c)` differs from `get_transform(b,c)·get_transform(a,b)`:
the claim's universal statement fails at this input. -/
theorem get_transform_chain_counterexample :
    findDirect (add_transform (cfgChain (translate4 10 0 0) (translate4 0 20 0))
        "a" "c" 1) "a" "b" = some (translate4 10 0 0) ∧
    findDirect (add_transform (cfgChain (translate4 10 0 0) (translate4 0 20 0))
        "a" "c" 1) "b" "c" = some (translate4 0 20 0) ∧
    get_transform (add_transform (cfgChain (translate4 10 0 0) (translate4 0 20 0))
        "a" "c" 1) "a" "b" = some (translate4 10 0 0) ∧
    get_transform (add_transform (cfgChain (translate4 10 0 0) (translate4 0 20 0))
        "a" "c" 1) "b" "c" = some (translate4 0 20 0) ∧
    get_transform (add_transform (cfgChain (translate4 10 0 0) (translate4 0 20 0))
        "a" "c" 1) "a" "c" = some 1 ∧
    (some (translate4 0 20 0 * translate4 10 0 0) : Option Mat4) ≠ some 1 := by
  refine ⟨rfl, rfl, rfl, rfl, rfl, ?_⟩
  rw [translate4_mul]
  intro h
  have h03 := congrFun (congrFun (Option.some_inj.mp h) 0) 3
  simp [translate4, Matrix.one_apply] at h03

/-- C2 (amended): in a configuration whose only stored edges are `a→b = Tab`
and `b→c = Tbc`, `get_transform(a,c)` is computed along the path and equals
the matrix product `get_transform(b,c) · get_transform(a,b) = Tbc · Tab`;
in particular for `a→b = translate(10,0,0)` and `b→c = translate(0,20,0)`
the composed transform is `translate(10,20,0)`. -/
theorem get_transform_chain (Tab Tbc : Mat4) :
    get_transform (cfgChain Tab Tbc) "a" "b" = some Tab ∧
    get_transform (cfgChain Tab Tbc) "b" "c" = some Tbc ∧
    get_transform (cfgChain Tab Tbc) "a" "c" = some (Tbc * Tab) ∧
    get_transform (cfgChain (translate4 10 0 0) (translate4 0 20 0)) "a" "c" =
      some (translate4 10 20 0) := by
  refine ⟨rfl, rfl, ?_, ?_⟩
  · have h : get_transform (cfgChain Tab Tbc) "a" "c" = some (1 * Tbc * Tab) := rfl
    rw [h, one_mul]
  · have h : get_transform (cfgChain (translate4 10 0 0) (translate4 0 20 0)) "a" "c" =
        some (1 * translate4 0 20 0 * translate4 10 0 0) := rfl
    rw [h, one_mul, translate4_mul]
    norm_num

/-- C3: for a stored edge `u→v = T` whose reverse edge is not stored,
`get_transform(v,u)` is derived as the matrix inverse `T⁻¹`. -/
theorem get_transform_inverse (tm : TManager) (u v : String) (T : Mat4)
    (hdir : findDirect tm u v = some T) (hrev : findDirect tm v u = none) :
    get_transform tm v u = some T⁻¹ := by
  simp only [get_transform, hrev, hdir, inv4_eq_inv]

theorem get_transform_inverse_witness :
    get_transform (add_transform [] "a" "b" (translate4 10 20 30)) "b" "a" =
      some (translate4 10 20 30)⁻¹ :=
  get_transform_inverse _ "a" "b" _ (by decide) (by decide)

/-! ## C6: as_transform_manager returns a defensive copy -/

theorem alookup_mem {α : Type} {l : List (String × α)} {k : String} {v : α}
    (h : alookup l k = some v) : (k, v) ∈ l := by
  induction l with
  | nil => simp [alookup] at h
  | cons e l ih =>
    by_cases he : e.1 = k
    · simp only [alookup, if_pos he] at h
      obtain rfl := Option.some_inj.mp h
      exact he ▸ List.mem_cons_self e l
    · simp only [alookup, if_neg he] at h
      exact List.mem_cons_of_mem e (ih h)

/-- Python heap model for `Workspace._configurations` and the TransformManager
objects it owns: `cells` is the heap (one cell per live TransformManager
object, a reference being an index); `configs` binds each configuration name
to the reference held by the workspace dict. -/
structure ConfigStore where
  configs : List (String × Nat)
  cells : List TManager
deriving DecidableEq

/-- Heap well-formedness: every reference held by the workspace dict points
at a live cell. -/
def ConfigStore.WF (st : ConfigStore) : Prop :=
  ∀ p ∈ st.configs, p.2 < st.cells.length

/-- Embeds `Workspace.create_configuration` (lines 329-344): allocate a fresh empty
TransformManager and bind the name to it. -/
def create_configuration (st : ConfigStore) (name : String) : ConfigStore :=
  ⟨(name, st.cells.length) :: st.configs, st.cells ++ [[]]⟩

/-- Embeds `Configuration._get_tm` (lines 177-179): dereference the configuration's
TransformManager. -/
def configTM (st : ConfigStore) (name : String) : Option TManager :=
  (alookup st.configs name).bind fun r => st.cells[r]?

/-- Embeds `Configuration.connect` (lines 181-198) as far as the graph is concerned:
mutate the configuration's TransformManager cell in place. -/
def configConnect (st : ConfigStore) (name u v : String) (T : Mat4) : ConfigStore :=
  match alookup st.configs name with
  | none => st
  | some r => ⟨st.configs, st.cells.set r (add_transform (st.cells.getD r []) u v T)⟩

/-- Embeds `Configuration.get_transform` as observed through the workspace. -/
def configGetTransform (st : ConfigStore) (name u v : String) : Option (Option Mat4) :=
  (configTM st name).map fun tm => get_transform tm u v

/-- Embeds `Configuration.as_transform_manager` (lines 218-225): `deepcopy` the
TransformManager — allocate a fresh heap cell holding a copy of the graph
state and return a reference to it (the workspace keeps its own reference). -/
def as_transform_manager (st : ConfigStore) (name : String) :
    Option (Nat × ConfigStore) :=
  (configTM st name).map fun tmv => (st.cells.length, ⟨st.configs, st.cells ++ [tmv]⟩)

/-- An arbitrary in-place mutation (e.g. `TransformManager.add_transform`)
performed through a caller-held reference `r`. -/
def cellMutate (st : ConfigStore) (r : Nat) (f : TManager → TManager) : ConfigStore :=
  ⟨st.configs, st.cells.set r (f (st.cells.getD r []))⟩

/-- C6: `as_transform_manager` returns a copy: any subsequent in-place
mutation `f` of the returned TransformManager (e.g. adding or replacing a
transform) leaves every configuration's observable graph state unchanged —
`get_transform` answers exactly as before the mutation. -/
theorem as_transform_manager_defensive_copy (st : ConfigStore) (name : String)
    (r : Nat) (st' : ConfigStore) (hwf : st.WF)
    (h : as_transform_manager st name = some (r, st'))
    (f : TManager → TManager) (name₂ u v : String) :
    configGetTransform (cellMutate st' r f) name₂ u v =
      configGetTransform st name₂ u v := by
  unfold as_transform_manager at h
  cases htm : configTM st name with
  | none => rw [htm] at h; exact absurd h (by simp)
  | some tmv =>
    rw [htm] at h
    obtain ⟨hr, hst⟩ := Prod.mk.injEq .. ▸ Option.some_inj.mp h
    subst hr
    subst hst
    unfold configGetTransform configTM cellMutate
    cases hlk : alookup st.configs name₂ with
    | none => rfl
    | some r₂ =>
      have hr₂ : r₂ < st.cells.length := hwf _ (alookup_mem hlk)
      simp only [Option.some_bind]
      rw [List.getElem?_set_ne (by omega), List.getElem?_append_left hr₂]

theorem as_transform_manager_defensive_copy_witness :
    ConfigStore.WF ⟨[("test", 0)], [[("a", "b", 1)]]⟩ ∧
    as_transform_manager ⟨[("test", 0)], [[("a", "b", 1)]]⟩ "test" =
      some (1, ⟨[("test", 0)], [[("a", "b", 1)], [("a", "b", 1)]]⟩) ∧
    configGetTransform
        (cellMutate ⟨[("test", 0)], [[("a", "b", 1)], [("a", "b", 1)]]⟩ 1
          fun tm => add_transform tm "a" "b" (translate4 999 999 999))
        "test" "a" "b" =
      configGetTransform ⟨[("test", 0)], [[("a", "b", 1)]]⟩ "test" "a" "b" :=
  ⟨by unfold ConfigStore.WF; decide, by decide,
    as_transform_manager_defensive_copy _ "test" 1 _
      (by unfold ConfigStore.WF; decide) (by decide) _ "test" "a" "b"⟩

/-! ## C7: create_scene copies the caller's dict — but only shallowly -/

/-- Python heap model for scene creation: `objCells` is the heap of `Point`
objects (numpy arrays, mutable in place), `dictCells` the heap of dicts
mapping object identity to an object reference, and `scenes` the workspace's
`_scenes` binding (scene name → dict reference). -/
structure SceneHeap where
  objCells : List Vec3
  dictCells : List (List (String × Nat))
  scenes : List (String × Nat)
deriving DecidableEq

/-- Embeds `Workspace.create_scene` (lines 311-327) with a caller-supplied `objects`
dict (reference `dc`): `objects.copy()` allocates a fresh dict cell holding
the same identity→reference entries (a *shallow* copy — the object references
are shared with the caller), and the workspace binds the name to it. -/
def create_scene (st : SceneHeap) (name : String) (dc : Nat) : SceneHeap :=
  ⟨st.objCells, st.dictCells ++ [st.dictCells.getD dc []],
    (name, st.dictCells.length) :: st.scenes⟩

/-- A caller rebinding entries of its own dict (adding, removing or
replacing identity→object entries in place). -/
def dictMutate (st : SceneHeap) (dc : Nat) (a : List (String × Nat)) : SceneHeap :=
  ⟨st.objCells, st.dictCells.set dc a, st.scenes⟩

/-- A caller mutating one of the `Point` objects in place
(e.g. `point[0] = 9` on the numpy array). -/
def objMutate (st : SceneHeap) (r : Nat) (p : Vec3) : SceneHeap :=
  ⟨st.objCells.set r p, st.dictCells, st.scenes⟩

/-- The scene's observable contents: each identity with the coordinates of
the object its entry references. -/
def sceneContents (st : SceneHeap) (name : String) : Option (List (String × Vec3)) :=
  (alookup st.scenes name).bind fun dc =>
    (st.dictCells[dc]?).map fun a => a.map fun ip => (ip.1, st.objCells.getD ip.2 0)

/-- C7 counterexample: the copy made by `create_scene` is shallow.  With a
caller dict `{"p": point(1,2,3)}`, creating scene `"test"` and then mutating
the held `Point` object in place changes what the scene reads back: the
claim that mutating the objects the caller's mapping holds leaves the
Scene's contents unaffected fails at this input. -/
theorem create_scene_shallow_copy_counterexample :
    sceneContents
        (create_scene ⟨[![1, 2, 3]], [[("p", 0)]], []⟩ "test" 0) "test" =
      some [("p", ![1, 2, 3])] ∧
    sceneContents
        (objMutate (create_scene ⟨[![1, 2, 3]], [[("p", 0)]], []⟩ "test" 0)
          0 ![9, 2, 3]) "test" =
      some [("p", ![9, 2, 3])] ∧
    (some [("p", ![9, 2, 3])] : Option (List (String × Vec3))) ≠
      some [("p", ![1, 2, 3])] := by
  refine ⟨by decide, by decide, by decide⟩

/-- C7 (amended): `create_scene` copies the caller's dict, so mutations of
the *mapping itself* — adding, removing or rebinding entries of the caller's
dict after `create_scene` returns — leave the Scene's contents unaffected;
only in-place mutation of a still-shared object is visible through the
Scene (shallow-copy semantics). -/
theorem create_scene_copies_dict (st : SceneHeap) (name : String) (dc : Nat)
    (hdc : dc < st.dictCells.length) (a : List (String × Nat)) :
    sceneContents (dictMutate (create_scene st name dc) dc a) name =
      sceneContents (create_scene st name dc) name := by
  unfold sceneContents dictMutate create_scene alookup
  simp only [eq_self_iff_true, if_true, Option.some_bind]
  rw [List.getElem?_set_ne (by omega)]

theorem create_scene_copies_dict_witness :
    sceneContents
        (dictMutate (create_scene ⟨[![1, 2, 3]], [[("p", 0)]], []⟩ "test" 0) 0
          [("p", 0), ("q", 0)]) "test" =
      sceneContents (create_scene ⟨[![1, 2, 3]], [[("p", 0)]], []⟩ "test" 0) "test" :=
  create_scene_copies_dict ⟨[![1, 2, 3]], [[("p", 0)]], []⟩ "test" 0 (by decide)
    [("p", 0), ("q", 0)]

/-! ## C1: best fit under pure translation — vector and sum toolbox -/

theorem listsum_congr {α : Type} {l : List α} {f g : α → ℚ}
    (h : ∀ x ∈ l, f x = g x) : (l.map f).sum = (l.map g).sum := by
  rw [List.map_congr_left h]

theorem listsum_add {α : Type} (l : List α) (f g : α → ℚ) :
    (l.map fun x => f x + g x).sum = (l.map f).sum + (l.map g).sum := by
  induction l with
  | nil => simp
  | cons x l ih => simp only [List.map_cons, List.sum_cons, ih]; ring

theorem listsum_const {α : Type} (l : List α) (c : ℚ) :
    (l.map fun _ => c).sum = l.length * c := by
  induction l with
  | nil => simp
  | cons x l ih => simp only [List.map_cons, List.sum_cons, ih, List.length_cons]; push_cast; ring

theorem listsum_nonneg {α : Type} {l : List α} {f : α → ℚ}
    (h : ∀ x ∈ l, 0 ≤ f x) : 0 ≤ (l.map f).sum := by
  induction l with
  | nil => simp
  | cons x l ih =>
    simp only [List.map_cons, List.sum_cons]
    exact add_nonneg (h x (List.mem_cons_self x l))
      (ih fun y hy => h y (List.mem_cons_of_mem x hy))

theorem listsum_eq_zero {α : Type} {l : List α} {f : α → ℚ}
    (h0 : ∀ x ∈ l, 0 ≤ f x) (hs : (l.map f).sum = 0) : ∀ x ∈ l, f x = 0 := by
  induction l with
  | nil => simp
  | cons x l ih =>
    simp only [List.map_cons, List.sum_cons] at hs
    have hx : 0 ≤ f x := h0 x (List.mem_cons_self x l)
    have hrest : 0 ≤ (l.map f).sum :=
      listsum_nonneg fun y hy => h0 y (List.mem_cons_of_mem x hy)
    have hfx : f x = 0 := by linarith
    have hsum : (l.map f).sum = 0 := by linarith
    intro y hy
    rcases List.mem_cons.mp hy with rfl | hy'
    · exact hfx
    · exact ih (fun z hz => h0 z (List.mem_cons_of_mem x hz)) hsum y hy'

theorem normSq_expand (v : Vec3) :
    normSq v = v 0 * v 0 + v 1 * v 1 + v 2 * v 2 := by
  rw [normSq, Matrix.vec3_dotProduct]

theorem normSq_nonneg (v : Vec3) : 0 ≤ normSq v := by
  rw [normSq_expand]
  have := mul_self_nonneg (v 0)
  have := mul_self_nonneg (v 1)
  have := mul_self_nonneg (v 2)
  linarith

theorem normSq_eq_zero {v : Vec3} (h : normSq v = 0) : v = 0 := by
  rw [normSq_expand] at h
  have h0 : v 0 = 0 := by nlinarith [mul_self_nonneg (v 1), mul_self_nonneg (v 2)]
  have h1 : v 1 = 0 := by nlinarith [mul_self_nonneg (v 0), mul_self_nonneg (v 2)]
  have h2 : v 2 = 0 := by nlinarith [mul_self_nonneg (v 0), mul_self_nonneg (v 1)]
  funext i
  fin_cases i <;> simpa using ‹_›

theorem normSq_ne_zero {v : Vec3} (h : v ≠ 0) : normSq v ≠ 0 :=
  fun h0 => h (normSq_eq_zero h0)

theorem mulVec3_apply (M : Mat3) (x : Vec3) (i : Fin 3) :
    (M *ᵥ x) i = M i 0 * x 0 + M i 1 * x 1 + M i 2 * x 2 := by
  simp [Matrix.mulVec, Matrix.dotProduct, Fin.sum_univ_three]

theorem dot_mulVec_right (A : Mat3) (a b : Vec3) :
    a ⬝ᵥ (A *ᵥ b) = (Aᵀ *ᵥ a) ⬝ᵥ b := by
  simp only [Matrix.vec3_dotProduct, mulVec3_apply, Matrix.transpose_apply]
  ring

theorem mulVec_dot_mulVec (A : Mat3) (a b : Vec3) :
    (A *ᵥ a) ⬝ᵥ (A *ᵥ b) = ((Aᵀ * A) *ᵥ a) ⬝ᵥ b := by
  simp only [Matrix.vec3_dotProduct, mulVec3_apply, Matrix.mul_apply,
    Fin.sum_univ_three, Matrix.transpose_apply]
  ring

theorem crossV_dot_left (u v : Vec3) : u ⬝ᵥ crossV u v = 0 := by
  rw [crossV, Matrix.vec3_dotProduct]
  norm_num
  ring

theorem crossV_dot_right (u v : Vec3) : v ⬝ᵥ crossV u v = 0 := by
  rw [crossV, Matrix.vec3_dotProduct]
  norm_num
  ring

theorem det_rows_crossV (u v : Vec3) :
    Matrix.det ![u, v, crossV u v] = normSq (crossV u v) := by
  rw [Matrix.det_fin_three, normSq_expand, crossV]
  norm_num
  ring

theorem rowMat_mulVec (u v w y : Vec3) :
    (![u, v, w] : Mat3) *ᵥ y = ![u ⬝ᵥ y, v ⬝ᵥ y, w ⬝ᵥ y] := by
  funext i
  fin_cases i <;> simp [Matrix.mulVec]

/-- A rotation that fixes two vectors with nonzero cross product is the
identity: the two vectors and their cross product form a basis; the cross
product direction is preserved up to a scalar that orthogonality forces to
`±1` and the determinant forces to `1`. -/
theorem rotation_eq_one_of_fixes {R : Mat3} (hR : IsRotation R) {u v : Vec3}
    (hu : R *ᵥ u = u) (hv : R *ᵥ v = v) (hw : crossV u v ≠ 0) : R = 1 := by
  obtain ⟨horth, hdet⟩ := hR
  set w := crossV u v with hwdef
  have hnw : normSq w ≠ 0 := normSq_ne_zero hw
  have hnw' : w ⬝ᵥ w ≠ 0 := hnw
  set x := R *ᵥ w with hxdef
  have hRt_u : Rᵀ *ᵥ u = u := by
    conv_lhs => rw [← hu]
    rw [Matrix.mulVec_mulVec, horth, Matrix.one_mulVec]
  have hRt_v : Rᵀ *ᵥ v = v := by
    conv_lhs => rw [← hv]
    rw [Matrix.mulVec_mulVec, horth, Matrix.one_mulVec]
  have hux : u ⬝ᵥ x = 0 := by
    rw [hxdef, dot_mulVec_right, hRt_u, hwdef, crossV_dot_left]
  have hvx : v ⬝ᵥ x = 0 := by
    rw [hxdef, dot_mulVec_right, hRt_v, hwdef, crossV_dot_right]
  set c : ℚ := (w ⬝ᵥ x) / (w ⬝ᵥ w) with hcdef
  have hdetM : Matrix.det ![u, v, w] = normSq w := det_rows_crossV u v
  have hMunit : IsUnit (Matrix.det (![u, v, w] : Mat3)) := by
    rw [hdetM]
    exact isUnit_iff_ne_zero.mpr hnw
  have hMx : (![u, v, w] : Mat3) *ᵥ x = ![0, 0, w ⬝ᵥ x] := by
    rw [rowMat_mulVec, hux, hvx]
  have hMcw : (![u, v, w] : Mat3) *ᵥ (c • w) = ![0, 0, w ⬝ᵥ x] := by
    rw [rowMat_mulVec]
    have h1 : u ⬝ᵥ (c • w) = 0 := by
      rw [Matrix.dotProduct_smul, hwdef, crossV_dot_left, smul_zero]
    have h2 : v ⬝ᵥ (c • w) = 0 := by
      rw [Matrix.dotProduct_smul, hwdef, crossV_dot_right, smul_zero]
    have hcancel : c * (w ⬝ᵥ w) = w ⬝ᵥ x := by
      rw [hcdef]
      exact div_mul_cancel₀ _ hnw'
    have h3 : w ⬝ᵥ (c • w) = w ⬝ᵥ x := by
      rw [Matrix.dotProduct_smul, smul_eq_mul, hcancel]
    rw [h1, h2, h3]
  have hxcw : x = c • w := by
    have hMM := hMx.trans hMcw.symm
    have := congrArg (fun yy => (![u, v, w] : Mat3)⁻¹ *ᵥ yy) hMM
    simpa [Matrix.mulVec_mulVec, Matrix.nonsing_inv_mul _ hMunit,
      Matrix.one_mulVec] using this
  have hRw : R *ᵥ w = c • w := hxdef ▸ hxcw
  have hRN : R * (Matrix.of ![u, v, w])ᵀ =
      (Matrix.of ![u, v, w])ᵀ * Matrix.of ![![1, 0, 0], ![0, 1, 0], ![0, 0, c]] := by
    ext i j
    rw [Matrix.mul_apply, Matrix.mul_apply]
    fin_cases j
    · have h := congrFun hu i
      rw [mulVec3_apply] at h
      simp only [Fin.sum_univ_three, Matrix.transpose_apply, Matrix.of_apply]
      norm_num [Matrix.vecHead, Matrix.vecTail]
      linear_combination h
    · have h := congrFun hv i
      rw [mulVec3_apply] at h
      simp only [Fin.sum_univ_three, Matrix.transpose_apply, Matrix.of_apply]
      norm_num [Matrix.vecHead, Matrix.vecTail]
      linear_combination h
    · have h := congrFun hRw i
      rw [mulVec3_apply] at h
      simp only [Pi.smul_apply, smul_eq_mul] at h
      simp only [Fin.sum_univ_three, Matrix.transpose_apply, Matrix.of_apply]
      norm_num [Matrix.vecHead, Matrix.vecTail]
      linear_combination h
  have hdetM' : Matrix.det (Matrix.of ![u, v, w]) = normSq w := hdetM
  have hdetEq := congrArg Matrix.det hRN
  rw [Matrix.det_mul, Matrix.det_mul, hdet, one_mul, Matrix.det_transpose,
    hdetM'] at hdetEq
  have hdetD :
      Matrix.det (Matrix.of ![![1, 0, 0], ![0, 1, 0], ![0, 0, c]] : Mat3) = c := by
    rw [Matrix.det_fin_three]
    norm_num
  rw [hdetD] at hdetEq
  have hc1 : c = 1 := by
    have hz : normSq w * (1 - c) = 0 := by linear_combination hdetEq
    rcases mul_eq_zero.mp hz with h | h
    · exact absurd h hnw
    · linarith
  have hD1 : (Matrix.of ![![1, 0, 0], ![0, 1, 0], ![0, 0, c]] : Mat3) = 1 := by
    rw [hc1]
    ext i j
    fin_cases i <;> fin_cases j <;>
      simp [Matrix.one_apply, Matrix.vecHead, Matrix.vecTail]
  have hRN1 : R * (Matrix.of ![u, v, w])ᵀ = (Matrix.of ![u, v, w])ᵀ := by
    rw [hRN, hD1, mul_one]
  have hNunit : IsUnit (Matrix.det ((Matrix.of ![u, v, w] : Mat3)ᵀ)) := by
    rw [Matrix.det_transpose]
    exact hMunit
  calc R = R * ((Matrix.of ![u, v, w] : Mat3)ᵀ * ((Matrix.of ![u, v, w] : Mat3)ᵀ)⁻¹) := by
        rw [Matrix.mul_nonsing_inv _ hNunit, mul_one]
    _ = (R * (Matrix.of ![u, v, w] : Mat3)ᵀ) * ((Matrix.of ![u, v, w] : Mat3)ᵀ)⁻¹ := by
        rw [mul_assoc]
    _ = (Matrix.of ![u, v, w] : Mat3)ᵀ * ((Matrix.of ![u, v, w] : Mat3)ᵀ)⁻¹ := by
        rw [hRN1]
    _ = 1 := Matrix.mul_nonsing_inv _ hNunit

theorem isRotation_one : IsRotation 1 :=
  ⟨by rw [Matrix.transpose_one, one_mul], Matrix.det_one⟩

theorem residualSq_nonneg (R : Mat3) (pairs : List (Vec3 × Vec3)) :
    0 ≤ residualSq R pairs :=
  listsum_nonneg fun pq _ => normSq_nonneg (pq.2 - R *ᵥ pq.1)

/-- Under a pure translation the to-centroid is the translated from-centroid. -/
theorem centroid_snd_of_translation (pairs : List (Vec3 × Vec3)) (d : Vec3)
    (hd : ∀ pq ∈ pairs, pq.2 = pq.1 + d) (hne : pairs ≠ []) :
    centroid (pairs.map Prod.snd) = centroid (pairs.map Prod.fst) + d := by
  have hn : (pairs.length : ℚ) ≠ 0 := by
    have := List.length_pos.mpr hne
    positivity
  funext i
  simp only [centroid, Pi.add_apply, List.map_map, List.length_map]
  have hsum : (pairs.map ((fun v => v i) ∘ Prod.snd)).sum =
      (pairs.map ((fun v => v i) ∘ Prod.fst)).sum + pairs.length * d i := by
    calc (pairs.map ((fun v => v i) ∘ Prod.snd)).sum
        = (pairs.map fun pq => pq.1 i + d i).sum :=
          listsum_congr fun pq hpq => by rw [Function.comp_apply, hd pq hpq]; rfl
      _ = (pairs.map fun pq => pq.1 i).sum + (pairs.map fun _ => d i).sum :=
          listsum_add pairs _ _
      _ = (pairs.map ((fun v => v i) ∘ Prod.fst)).sum + pairs.length * d i := by
          rw [listsum_const]; rfl
  rw [hsum, add_div, mul_div_cancel_left₀ _ hn]

/-- Under a pure translation the two centred clouds coincide pairwise. -/
theorem centered_snd_eq_fst_of_translation (pairs : List (Vec3 × Vec3)) (d : Vec3)
    (hd : ∀ pq ∈ pairs, pq.2 = pq.1 + d) (hne : pairs ≠ []) :
    ∀ cq ∈ centeredPairs pairs, cq.2 = cq.1 := by
  intro cq hcq
  simp only [centeredPairs, List.mem_map] at hcq
  obtain ⟨pq, hpq, rfl⟩ := hcq
  show pq.2 - centroid (pairs.map Prod.snd) = pq.1 - centroid (pairs.map Prod.fst)
  rw [hd pq hpq, centroid_snd_of_translation pairs d hd hne]
  abel

/-- Under a pure translation the identity rotation has zero residual on the
centred clouds. -/
theorem residualSq_one_of_translation (pairs : List (Vec3 × Vec3)) (d : Vec3)
    (hd : ∀ pq ∈ pairs, pq.2 = pq.1 + d) (hne : pairs ≠ []) :
    residualSq 1 (centeredPairs pairs) = 0 := by
  unfold residualSq
  rw [listsum_congr (g := fun _ => (0 : ℚ))
    (fun cq hcq => by
      rw [Matrix.one_mulVec, centered_snd_eq_fst_of_translation pairs d hd hne cq hcq,
        sub_self]
      simp [normSq_expand])]
  rw [listsum_const, mul_zero]

set_option maxHeartbeats 1000000 in
/-- Key step for C1, over the identity-paired lists: when every pair differs
by the fixed translation `d` and three of the from-points are non-collinear,
any least-squares-optimal rotation of the centred clouds is the identity, so
the assembled transform is the pure translation by `d`. -/
theorem bestFitPairs_translation (solve : Mat3 → Mat3)
    (pairs : List (Vec3 × Vec3)) (d : Vec3)
    (hd : ∀ pq ∈ pairs, pq.2 = pq.1 + d)
    (hnc : ∃ pq₁ ∈ pairs, ∃ pq₂ ∈ pairs, ∃ pq₃ ∈ pairs,
      crossV (pq₂.1 - pq₁.1) (pq₃.1 - pq₁.1) ≠ 0)
    (hsolve : KabschOptimal (solve (covMatrix (centeredPairs pairs)))
      (centeredPairs pairs)) :
    rotOf (bestFitPairs solve pairs) = 1 ∧
    transOf (bestFitPairs solve pairs) = d := by
  obtain ⟨pq₁, hm₁, pq₂, hm₂, pq₃, hm₃, hcross⟩ := hnc
  have hne : pairs ≠ [] := List.ne_nil_of_mem hm₁
  have hcent := centroid_snd_of_translation pairs d hd hne
  have hcent_eq := centered_snd_eq_fst_of_translation pairs d hd hne
  have hresR : residualSq (solve (covMatrix (centeredPairs pairs)))
      (centeredPairs pairs) = 0 := by
    have hle := hsolve.2 1 isRotation_one
    rw [residualSq_one_of_translation pairs d hd hne] at hle
    exact le_antisymm hle (residualSq_nonneg _ _)
  -- hence the optimal rotation fixes every centred from-point
  have hfix : ∀ cq ∈ centeredPairs pairs,
      solve (covMatrix (centeredPairs pairs)) *ᵥ cq.1 = cq.1 := by
    intro cq hcq
    have hterm := listsum_eq_zero
      (fun pq _ => normSq_nonneg (pq.2 - solve (covMatrix (centeredPairs pairs)) *ᵥ pq.1))
      hresR cq hcq
    have hz := normSq_eq_zero hterm
    have := sub_eq_zero.mp hz
    rw [hcent_eq cq hcq] at this
    exact this.symm
  -- fix the three non-collinear directions, hence the rotation is the identity
  have hfix1 : solve (covMatrix (centeredPairs pairs)) *ᵥ
      (pq₁.1 - centroid (pairs.map Prod.fst)) =
      pq₁.1 - centroid (pairs.map Prod.fst) := by
    simpa using hfix _ (List.mem_map_of_mem _ hm₁)
  have hfix2 : solve (covMatrix (centeredPairs pairs)) *ᵥ
      (pq₂.1 - centroid (pairs.map Prod.fst)) =
      pq₂.1 - centroid (pairs.map Prod.fst) := by
    simpa using hfix _ (List.mem_map_of_mem _ hm₂)
  have hfix3 : solve (covMatrix (centeredPairs pairs)) *ᵥ
      (pq₃.1 - centroid (pairs.map Prod.fst)) =
      pq₃.1 - centroid (pairs.map Prod.fst) := by
    simpa using hfix _ (List.mem_map_of_mem _ hm₃)
  have hu : solve (covMatrix (centeredPairs pairs)) *ᵥ (pq₂.1 - pq₁.1) =
      pq₂.1 - pq₁.1 := by
    rw [← sub_sub_sub_cancel_right pq₂.1 pq₁.1 (centroid (pairs.map Prod.fst)),
      Matrix.mulVec_sub, hfix2, hfix1]
  have hv : solve (covMatrix (centeredPairs pairs)) *ᵥ (pq₃.1 - pq₁.1) =
      pq₃.1 - pq₁.1 := by
    rw [← sub_sub_sub_cancel_right pq₃.1 pq₁.1 (centroid (pairs.map Prod.fst)),
      Matrix.mulVec_sub, hfix3, hfix1]
  have hR1 : solve (covMatrix (centeredPairs pairs)) = 1 :=
    rotation_eq_one_of_fixes hsolve.1 hu hv hcross
  have hbfp : bestFitPairs solve pairs =
      assembleTransform (solve (covMatrix (centeredPairs pairs)))
        (centroid (pairs.map Prod.snd) -
          solve (covMatrix (centeredPairs pairs)) *ᵥ centroid (pairs.map Prod.fst)) :=
    rfl
  constructor
  · rw [hbfp, rotOf_assembleTransform, hR1]
  · rw [hbfp, transOf_assembleTransform, hR1, Matrix.one_mulVec, hcent,
      add_sub_cancel_left]

theorem mem_pairsOf {fm tm : List (String × Vec3)} {order : List String}
    {pq : Vec3 × Vec3} (h : pq ∈ pairsOf fm tm order) :
    ∃ i ∈ order, alookup fm i = some pq.1 ∧ alookup tm i = some pq.2 := by
  unfold pairsOf at h
  rw [List.mem_filterMap] at h
  obtain ⟨i, hi, hfi⟩ := h
  cases hf : alookup fm i with
  | none => rw [hf] at hfi; simp at hfi
  | some p =>
    cases ht : alookup tm i with
    | none => rw [hf, ht] at hfi; simp at hfi
    | some q =>
      rw [hf, ht] at hfi
      have hpq : (p, q) = pq := by simpa using hfi
      subst hpq
      exact ⟨i, hi, hf, ht⟩

theorem pairsOf_mem_intro {fm tm : List (String × Vec3)} {order : List String}
    {i : String} (hi : i ∈ order) {p q : Vec3}
    (hf : alookup fm i = some p) (ht : alookup tm i = some q) :
    (p, q) ∈ pairsOf fm tm order := by
  unfold pairsOf
  rw [List.mem_filterMap]
  exact ⟨i, hi, by rw [hf, ht]; rfl⟩

theorem mem_sharedIds_none {fm tm : List (String × Vec3)} {i : String} {p : Vec3}
    (hf : alookup fm i = some p) (ht : hasKey tm i = true) :
    i ∈ sharedIds fm tm none := by
  simp only [sharedIds, List.mem_dedup, List.mem_filter]
  exact ⟨List.mem_map.mpr ⟨(i, p), alookup_mem hf, rfl⟩, ht⟩

theorem crossV_self_eq_zero (a : Vec3) : crossV a a = 0 := by
  funext i
  fin_cases i <;> simp [crossV, mul_comm]

theorem crossV_zero_left (v : Vec3) : crossV 0 v = 0 := by
  funext i
  fin_cases i <;> simp [crossV]

theorem crossV_zero_right (u : Vec3) : crossV u 0 = 0 := by
  funext i
  fin_cases i <;> simp [crossV]

theorem three_mem_length_ge {l : List String} {a b c : String}
    (ha : a ∈ l) (hb : b ∈ l) (hc : c ∈ l)
    (hab : a ≠ b) (hac : a ≠ c) (hbc : b ≠ c) : 3 ≤ l.length := by
  have hsub : ({a, b, c} : Finset String) ⊆ l.toFinset := by
    intro x hx
    simp only [Finset.mem_insert, Finset.mem_singleton] at hx
    rcases hx with rfl | rfl | rfl <;> simpa [List.mem_toFinset]
  have hcard : ({a, b, c} : Finset String).card = 3 := by
    rw [Finset.card_insert_of_not_mem (by simp [hab, hac]),
      Finset.card_insert_of_not_mem (by simp [hbc]), Finset.card_singleton]
  calc 3 = ({a, b, c} : Finset String).card := hcard.symm
    _ ≤ l.toFinset.card := Finset.card_le_card hsub
    _ ≤ l.length := l.toFinset_card_le

/-- C1: for existing scenes whose shared mean positions differ exactly by the
translation `d`, with three shared identities whose from-positions are
non-collinear, and a least-squares-optimal rotation solver, `best_fit_points`
succeeds and returns a transform whose rotation block is the identity and
whose translation column is `d`. -/
theorem best_fit_translation_pure (solve : Mat3 → Mat3) (ws : WorkspaceScenes)
    (cfg : TManager) (f t : String) (fd td : SceneData) (d : Vec3)
    (hf : alookup ws f = some fd) (ht : alookup ws t = some td)
    (htrans : ∀ i ∈ sharedIds (get_mean_points fd) (get_mean_points td) none,
      ∀ p q, alookup (get_mean_points fd) i = some p →
        alookup (get_mean_points td) i = some q → q = p + d)
    (hnc : ∃ i₁ p₁ i₂ p₂ i₃ p₃,
      alookup (get_mean_points fd) i₁ = some p₁ ∧ hasKey (get_mean_points td) i₁ ∧
      alookup (get_mean_points fd) i₂ = some p₂ ∧ hasKey (get_mean_points td) i₂ ∧
      alookup (get_mean_points fd) i₃ = some p₃ ∧ hasKey (get_mean_points td) i₃ ∧
      crossV (p₂ - p₁) (p₃ - p₁) ≠ 0)
    (hsolve : KabschOptimal
      (solve (covMatrix (centeredPairs (pairsOf (get_mean_points fd)
        (get_mean_points td)
        (sharedIds (get_mean_points fd) (get_mean_points td) none)))))
      (centeredPairs (pairsOf (get_mean_points fd) (get_mean_points td)
        (sharedIds (get_mean_points fd) (get_mean_points td) none)))) :
    ∃ T cfg', best_fit_points solve ws cfg f t none = .ok (T, cfg') ∧
      rotOf T = 1 ∧ transOf T = d := by
  obtain ⟨i₁, p₁, i₂, p₂, i₃, p₃, hf₁, ht₁, hf₂, ht₂, hf₃, ht₃, hcross⟩ := hnc
  obtain ⟨q₁, hq₁⟩ := Option.isSome_iff_exists.mp ht₁
  obtain ⟨q₂, hq₂⟩ := Option.isSome_iff_exists.mp ht₂
  obtain ⟨q₃, hq₃⟩ := Option.isSome_iff_exists.mp ht₃
  have hs₁ := mem_sharedIds_none hf₁ ht₁
  have hs₂ := mem_sharedIds_none hf₂ ht₂
  have hs₃ := mem_sharedIds_none hf₃ ht₃
  -- the three identities are pairwise distinct
  have h12 : i₁ ≠ i₂ := by
    rintro rfl
    rw [hf₁] at hf₂
    obtain rfl := Option.some_inj.mp hf₂
    exact hcross (by rw [sub_self, crossV_zero_left])
  have h13 : i₁ ≠ i₃ := by
    rintro rfl
    rw [hf₁] at hf₃
    obtain rfl := Option.some_inj.mp hf₃
    exact hcross (by rw [sub_self, crossV_zero_right])
  have h23 : i₂ ≠ i₃ := by
    rintro rfl
    rw [hf₂] at hf₃
    obtain rfl := Option.some_inj.mp hf₃
    exact hcross (crossV_self_eq_zero _)
  have h3 : ¬ (sharedIds (get_mean_points fd) (get_mean_points td) none).length < 3 := by
    have := three_mem_length_ge hs₁ hs₂ hs₃ h12 h13 h23
    omega
  -- the paired lists are a pure translation
  have hd : ∀ pq ∈ pairsOf (get_mean_points fd) (get_mean_points td)
      (sharedIds (get_mean_points fd) (get_mean_points td) none),
      pq.2 = pq.1 + d := by
    intro pq hpq
    obtain ⟨i, hi, hfi, hti⟩ := mem_pairsOf hpq
    exact htrans i hi pq.1 pq.2 hfi hti
  have hnc' : ∃ pq₁ ∈ pairsOf (get_mean_points fd) (get_mean_points td)
        (sharedIds (get_mean_points fd) (get_mean_points td) none),
      ∃ pq₂ ∈ pairsOf (get_mean_points fd) (get_mean_points td)
        (sharedIds (get_mean_points fd) (get_mean_points td) none),
      ∃ pq₃ ∈ pairsOf (get_mean_points fd) (get_mean_points td)
        (sharedIds (get_mean_points fd) (get_mean_points td) none),
      crossV (pq₂.1 - pq₁.1) (pq₃.1 - pq₁.1) ≠ 0 :=
    ⟨(p₁, q₁), pairsOf_mem_intro hs₁ hf₁ hq₁,
     (p₂, q₂), pairsOf_mem_intro hs₂ hf₂ hq₂,
     (p₃, q₃), pairsOf_mem_intro hs₃ hf₃ hq₃, hcross⟩
  have hmain := bestFitPairs_translation solve _ d hd hnc' hsolve
  refine ⟨bestFitPairs solve (pairsOf (get_mean_points fd) (get_mean_points td)
      (sharedIds (get_mean_points fd) (get_mean_points td) none)),
    add_transform cfg f t (bestFitPairs solve (pairsOf (get_mean_points fd)
      (get_mean_points td)
      (sharedIds (get_mean_points fd) (get_mean_points td) none))),
    ?_, hmain.1, hmain.2⟩
  simp [best_fit_points, hf, ht, h3]

theorem best_fit_translation_pure_witness :
    ∃ T cfg',
      best_fit_points (fun _ => 1) [("a", aPointsW), ("b", bPointsW)] [] "a" "b" none =
        .ok (T, cfg') ∧ rotOf T = 1 ∧ transOf T = ![10, 20, 30] := by
  have hpairs : pairsOf (get_mean_points aPointsW) (get_mean_points bPointsW)
      (sharedIds (get_mean_points aPointsW) (get_mean_points bPointsW) none) =
      [(![0, 0, 0], ![10, 20, 30]), (![1, 0, 0], ![11, 20, 30]),
       (![0, 1, 0], ![10, 21, 30])] := rfl
  have hd : ∀ pq ∈ pairsOf (get_mean_points aPointsW) (get_mean_points bPointsW)
      (sharedIds (get_mean_points aPointsW) (get_mean_points bPointsW) none),
      pq.2 = pq.1 + ![10, 20, 30] := by
    intro pq hpq
    rw [hpairs] at hpq
    fin_cases hpq <;> (funext i; fin_cases i <;> norm_num)
  apply best_fit_translation_pure (fun _ => 1) [("a", aPointsW), ("b", bPointsW)] []
    "a" "b" aPointsW bPointsW ![10, 20, 30] rfl rfl
  · intro i hi p q hp hq
    have hi' : i ∈ ["p1", "p2", "p3"] := hi
    fin_cases hi'
    · rw [show alookup (get_mean_points aPointsW) "p1" = some ![0, 0, 0] from rfl] at hp
      rw [show alookup (get_mean_points bPointsW) "p1" = some ![10, 20, 30] from rfl] at hq
      obtain rfl := Option.some_inj.mp hp
      obtain rfl := Option.some_inj.mp hq
      funext j
      fin_cases j <;> norm_num
    · rw [show alookup (get_mean_points aPointsW) "p2" = some ![1, 0, 0] from rfl] at hp
      rw [show alookup (get_mean_points bPointsW) "p2" = some ![11, 20, 30] from rfl] at hq
      obtain rfl := Option.some_inj.mp hp
      obtain rfl := Option.some_inj.mp hq
      funext j
      fin_cases j <;> norm_num
    · rw [show alookup (get_mean_points aPointsW) "p3" = some ![0, 1, 0] from rfl] at hp
      rw [show alookup (get_mean_points bPointsW) "p3" = some ![10, 21, 30] from rfl] at hq
      obtain rfl := Option.some_inj.mp hp
      obtain rfl := Option.some_inj.mp hq
      funext j
      fin_cases j <;> norm_num
  · refine ⟨"p1", ![0, 0, 0], "p2", ![1, 0, 0], "p3", ![0, 1, 0],
      rfl, rfl, rfl, rfl, rfl, rfl, ?_⟩
    intro h
    have h2 := congrFun h 2
    norm_num [crossV] at h2
  · refine ⟨isRotation_one, fun S hS => ?_⟩
    show residualSq 1 (centeredPairs (pairsOf (get_mean_points aPointsW)
        (get_mean_points bPointsW) (sharedIds (get_mean_points aPointsW)
          (get_mean_points bPointsW) none))) ≤ _
    rw [residualSq_one_of_translation _ ![10, 20, 30] hd (by rw [hpairs]; simp)]
    exact residualSq_nonneg S _

/-! ## C10: add_points_from_observations touches only observed identities -/

/-- Embeds `Scene.add_points_from_observations` lines 106-108: group the
observations with `defaultdict(list)` — keys in first-occurrence order, each
key's coordinates in input order. -/
def groupObs (obs : List (String × Vec3)) : List (String × List Vec3) :=
  obs.foldl
    (fun g oc =>
      if hasKey g oc.1 then
        g.map fun e => if e.1 = oc.1 then (e.1, e.2 ++ [oc.2]) else e
      else g ++ [(oc.1, [oc.2])])
    []

/-- Python `data[k] = v` on the dict model: overwrite in place, else append. -/
def dictSet (d : SceneData) (k : String) (v : SceneObj) : SceneData :=
  if hasKey d k then d.map fun e => if e.1 = k then (e.1, v) else e
  else d ++ [(k, v)]

/-- Embeds `Scene.add_points_from_observations` (lines 85-112): every grouped
identity's entry is set to the `Points` of all its observed coordinates. -/
def add_points_from_observations (data : SceneData)
    (obs : List (String × Vec3)) : SceneData :=
  (groupObs obs).foldl (fun d e => dictSet d e.1 (.pointSet e.2)) data

/-- All coordinates observed for one identity, in input order. -/
def obsCoords (id : String) (obs : List (String × Vec3)) : List Vec3 :=
  obs.filterMap fun oc => if oc.1 = id then some oc.2 else none

theorem alookup_append {α : Type} (l₁ l₂ : List (String × α)) (id : String) :
    alookup (l₁ ++ l₂) id =
      match alookup l₁ id with
      | some v => some v
      | none => alookup l₂ id := by
  induction l₁ with
  | nil => simp [alookup]
  | cons e l ih => by_cases he : e.1 = id <;> simp [alookup, he, ih]

theorem alookup_map_ne {α : Type} (d : List (String × α)) (k : String)
    (h : String × α → α) {id : String} (hki : k ≠ id) :
    alookup (d.map fun e => if e.1 = k then (e.1, h e) else e) id =
      alookup d id := by
  induction d with
  | nil => rfl
  | cons e d ih =>
    by_cases hek : e.1 = k
    · have hei : ¬ e.1 = id := fun hh => hki (hek ▸ hh)
      simp [alookup, hek, hei, ih, hki]
    · by_cases hei : e.1 = id <;> simp [alookup, hek, hei, ih, Ne.symm hki]

theorem alookup_mapConst_ne {α : Type} (d : List (String × α)) (k : String)
    (v : α) {id : String} (hki : k ≠ id) :
    alookup (d.map fun e => if e.1 = k then (e.1, v) else e) id =
      alookup d id := by
  induction d with
  | nil => rfl
  | cons e d ih =>
    by_cases hek : e.1 = k
    · have hei : ¬ e.1 = id := fun h => hki (hek ▸ h)
      simp [alookup, hek, hei, ih, hki]
    · by_cases hei : e.1 = id <;> simp [alookup, hek, hei, ih, Ne.symm hki]

theorem alookup_mapConst_self {α : Type} {d : List (String × α)} {k : String}
    (v : α) (hk : hasKey d k = true) :
    alookup (d.map fun e => if e.1 = k then (e.1, v) else e) k = some v := by
  induction d with
  | nil => simp [hasKey, alookup] at hk
  | cons e d ih =>
    by_cases hek : e.1 = k
    · simp [alookup, hek]
    · have hk2 : hasKey d k = true := by
        simpa [hasKey, alookup, hek] using hk
      simp [alookup, hek, ih hk2]

theorem alookup_map_self {α : Type} {d : List (String × α)} {k : String}
    (h : String × α → α) (hk : hasKey d k = true) :
    alookup (d.map fun e => if e.1 = k then (e.1, h e) else e) k =
      (alookup d k).map fun cs => h (k, cs) := by
  induction d with
  | nil => simp [hasKey, alookup] at hk
  | cons e d ih =>
    by_cases hek : e.1 = k
    · subst hek
      simp [alookup]
    · have hk2 : hasKey d k = true := by
        simpa [hasKey, alookup, hek] using hk
      simp [alookup, hek, ih hk2]

theorem alookup_dictSet (d : SceneData) (k : String) (v : SceneObj) (id : String) :
    alookup (dictSet d k v) id = if k = id then some v else alookup d id := by
  unfold dictSet
  by_cases hk : hasKey d k
  · rw [if_pos hk]
    by_cases hki : k = id
    · subst hki
      rw [if_pos rfl, alookup_mapConst_self v hk]
    · rw [if_neg hki, alookup_mapConst_ne d k _ hki]
  · rw [if_neg hk, alookup_append]
    by_cases hki : k = id
    · subst hki
      have : alookup d k = none := by
        cases h : alookup d k with
        | none => rfl
        | some x => exact absurd (by rw [hasKey, h]; rfl) hk
      rw [this, if_pos rfl]
      simp [alookup]
    · cases h : alookup d id with
      | none => simp [alookup, if_neg hki, Ne.symm hki]
      | some x => simp [h, hki]

theorem groupObs_fold (obs : List (String × Vec3))
    (g : List (String × List Vec3)) (id : String) :
    alookup (obs.foldl
        (fun g oc =>
          if hasKey g oc.1 then
            g.map fun e => if e.1 = oc.1 then (e.1, e.2 ++ [oc.2]) else e
          else g ++ [(oc.1, [oc.2])]) g) id =
      match alookup g id with
      | some cs => some (cs ++ obsCoords id obs)
      | none =>
        if id ∈ obs.map Prod.fst then some (obsCoords id obs) else none := by
  induction obs generalizing g with
  | nil =>
    cases h : alookup g id <;> simp [obsCoords, h]
  | cons oc obs ih =>
    rw [List.foldl_cons, ih]
    by_cases hoc : oc.1 = id
    · have hcoords : obsCoords id (oc :: obs) = oc.2 :: obsCoords id obs := by
        simp [obsCoords, List.filterMap_cons, hoc]
      cases hg : alookup g id with
      | none =>
        have hkey : ¬ hasKey g oc.1 = true := by
          rw [hoc, hasKey, hg]
          simp
        rw [if_neg hkey, alookup_append, hg]
        simp only [alookup, hoc, if_pos rfl]
        simp [hcoords, hoc]
      | some cs =>
        have hkey : hasKey g oc.1 = true := by rw [hoc, hasKey, hg]; rfl
        rw [if_pos hkey]
        subst hoc
        rw [alookup_map_self (fun e => e.2 ++ [oc.2]) hkey, hg]
        simp [hcoords]
    · have hid : ¬ id = oc.1 := fun hh => hoc hh.symm
      have hcoords : obsCoords id (oc :: obs) = obsCoords id obs := by
        simp [obsCoords, List.filterMap_cons, hoc]
      by_cases hkey : hasKey g oc.1 = true
      · rw [if_pos hkey, alookup_map_ne g oc.1 _ hoc]
        have hmm : (id ∈ oc.1 :: obs.map Prod.fst) ↔ (id ∈ obs.map Prod.fst) := by
          simp [hid]
        cases hg : alookup g id with
        | some cs => simp [hcoords]
        | none =>
          simp only [hg, hcoords, List.map_cons]
          exact (if_congr hmm rfl rfl).symm
      · rw [if_neg hkey, alookup_append]
        have hmm : (id ∈ oc.1 :: obs.map Prod.fst) ↔ (id ∈ obs.map Prod.fst) := by
          simp [hid]
        cases hg : alookup g id with
        | some cs => simp [hg, hcoords]
        | none =>
          simp only [hg, alookup, hoc, hcoords, if_neg hoc, List.map_cons]
          exact (if_congr hmm rfl rfl).symm

theorem alookup_groupObs (obs : List (String × Vec3)) (id : String) :
    alookup (groupObs obs) id =
      if id ∈ obs.map Prod.fst then some (obsCoords id obs) else none := by
  rw [groupObs, groupObs_fold]
  simp [alookup]

theorem groupObs_fold_nodup (obs : List (String × Vec3))
    (g : List (String × List Vec3)) (h : (g.map Prod.fst).Nodup) :
    ((obs.foldl
        (fun g oc =>
          if hasKey g oc.1 then
            g.map fun e => if e.1 = oc.1 then (e.1, e.2 ++ [oc.2]) else e
          else g ++ [(oc.1, [oc.2])]) g).map Prod.fst).Nodup := by
  induction obs generalizing g with
  | nil => exact h
  | cons oc obs ih =>
    rw [List.foldl_cons]
    apply ih
    by_cases hkey : hasKey g oc.1 = true
    · rw [if_pos hkey]
      have hfst : ((g.map fun e => if e.1 = oc.1 then (e.1, e.2 ++ [oc.2]) else e).map
          Prod.fst) = g.map Prod.fst := by
        rw [List.map_map]
        apply List.map_congr_left
        intro e _
        by_cases he : e.1 = oc.1 <;> simp [he]
      rw [hfst]
      exact h
    · rw [if_neg hkey, List.map_append]
      rw [List.nodup_append]
      refine ⟨h, List.nodup_singleton _, ?_⟩
      simp only [List.map_cons, List.map_nil, List.disjoint_singleton]
      intro hx
      exact hkey (alookup_isSome_of_mem hx)

theorem groupObs_keys_nodup (obs : List (String × Vec3)) :
    ((groupObs obs).map Prod.fst).Nodup :=
  groupObs_fold_nodup obs [] (by simp)

theorem alookup_fold_dictSet (grouped : List (String × List Vec3))
    (data : SceneData) (id : String)
    (hnodup : (grouped.map Prod.fst).Nodup) :
    alookup (grouped.foldl (fun d e => dictSet d e.1 (.pointSet e.2)) data) id =
      match alookup grouped id with
      | some cs => some (.pointSet cs)
      | none => alookup data id := by
  induction grouped generalizing data with
  | nil => simp [alookup]
  | cons e gr ih =>
    simp only [List.map_cons, List.nodup_cons] at hnodup
    rw [List.foldl_cons, ih _ hnodup.2]
    by_cases hei : e.1 = id
    · have hnone : alookup gr id = none := by
        cases hg : alookup gr id with
        | none => rfl
        | some cs =>
          exact absurd (List.mem_map.mpr ⟨(id, cs), alookup_mem hg, rfl⟩)
            (hei ▸ hnodup.1)
      rw [hnone, alookup_dictSet, if_pos hei]
      simp [alookup, hei]
    · rw [alookup_dictSet, if_neg hei]
      cases hg : alookup gr id with
      | some cs => simp [alookup, hei, hg]
      | none => simp [alookup, hei, hg]

/-- C10: `add_points_from_observations` modifies exactly the entries whose
identities appear in the observation sequence — each such entry becomes the
single PointSet of all its observed coordinates in input order — and every
entry whose identity is not observed is left unchanged. -/
theorem add_points_from_observations_frame (data : SceneData)
    (obs : List (String × Vec3)) :
    (∀ id, id ∉ obs.map Prod.fst →
      alookup (add_points_from_observations data obs) id = alookup data id) ∧
    (∀ id, id ∈ obs.map Prod.fst →
      alookup (add_points_from_observations data obs) id =
        some (.pointSet (obsCoords id obs))) := by
  constructor <;> intro id hid <;>
    rw [add_points_from_observations,
      alookup_fold_dictSet _ _ _ (groupObs_keys_nodup obs), alookup_groupObs]
  · rw [if_neg hid]
  · rw [if_pos hid]

theorem add_points_from_observations_frame_witness :
    alookup (add_points_from_observations
        [("keep", .point ![7, 7, 7]), ("QP.F1", .point ![5, 5, 5])]
        [("QP.F1", ![1, 2, 3]), ("QP.F1", ![4, 5, 6]), ("QP.F2", ![9, 9, 9])])
        "keep" =
      alookup [("keep", SceneObj.point ![7, 7, 7]), ("QP.F1", .point ![5, 5, 5])]
        "keep" ∧
    alookup (add_points_from_observations
        [("keep", .point ![7, 7, 7]), ("QP.F1", .point ![5, 5, 5])]
        [("QP.F1", ![1, 2, 3]), ("QP.F1", ![4, 5, 6]), ("QP.F2", ![9, 9, 9])])
        "QP.F1" =
      some (.pointSet (obsCoords "QP.F1"
        [("QP.F1", ![1, 2, 3]), ("QP.F1", ![4, 5, 6]), ("QP.F2", ![9, 9, 9])])) :=
  ⟨(add_points_from_observations_frame _ _).1 "keep" (by decide),
   (add_points_from_observations_frame _ _).2 "QP.F1" (by decide)⟩

/-! ## C8: View.query("*") consolidation completeness -/

/-- Modelled from the spec: glob-style wildcard match on identity strings
(§4.4 `query`): a star matches any sequence of characters, any other
character matches itself. -/
def globMatchL : List Char → List Char → Bool
  | [], [] => true
  | [], _ :: _ => false
  | c :: ps, s =>
    if c = '*' then
      globMatchL ps s ||
        (match s with
         | [] => false
         | _ :: cs => globMatchL (c :: ps) cs)
    else
      match s with
      | [] => false
      | c2 :: cs => c = c2 && globMatchL ps cs
termination_by p s => (p.length, s.length)

def globMatch (pattern id : String) : Bool :=
  globMatchL pattern.toList id.toList

theorem globMatchL_star (s : List Char) : globMatchL ['*'] s = true := by
  induction s with
  | nil => simp [globMatchL]
  | cons c cs ih => simp [globMatchL, ih]

theorem globMatch_star (id : String) : globMatch "*" id = true :=
  globMatchL_star _

/-- Homogeneous coordinates of a 3D point. -/
def toHom (p : Vec3) : Fin 4 → ℚ := ![p 0, p 1, p 2, 1]

/-- Apply a 4×4 homogeneous transform to a 3D point. -/
def applyT (T : Mat4) (p : Vec3) : Vec3 := fun i => (T *ᵥ toHom p) i.castSucc

/-- Modelled from the spec: resolving one object into the reference frame
(§4.4 `get_object`): a Point maps to a single transformed point, a PointSet
maps every member through the same transform preserving count and order, any
other kind is unsupported (`none`, skipped by `query`). -/
def resolveObj (T : Mat4) : SceneObj → Option (List Vec3)
  | .point p => some [applyT T p]
  | .pointSet ps => some (ps.map (applyT T))
  | .unsupported _ => none

/-- Consolidation step: append the resolved coordinates for one identity to
its PointSet under construction (spec §4.4 consolidation rule). -/
def addObs (acc : List (String × List Vec3)) (id : String) (cs : List Vec3) :
    List (String × List Vec3) :=
  if hasKey acc id then acc.map fun e => if e.1 = id then (e.1, e.2 ++ cs) else e
  else acc ++ [(id, cs)]

/-- Modelled from the spec: scan one scene's entries in order, resolving and
consolidating every identity matching the pattern, skipping unsupported
kinds. -/
def sceneMatches (pattern : String) (T : Mat4) (data : SceneData)
    (acc : List (String × List Vec3)) : List (String × List Vec3) :=
  data.foldl
    (fun acc io =>
      if globMatch pattern io.1 then
        match resolveObj T io.2 with
        | some cs => addObs acc io.1 cs
        | none => acc
      else acc) acc

/-- Modelled from the spec: `View.query` (§4.4): scan every scene of the
workspace; scenes with no transform path to the reference are skipped; all
matched observations sharing an identity are merged into one PointSet. -/
def view_query (ws : WorkspaceScenes) (cfg : TManager) (ref pattern : String) :
    List (String × List Vec3) :=
  ws.foldl
    (fun acc sd =>
      match get_transform cfg sd.1 ref with
      | some T => sceneMatches pattern T sd.2 acc
      | none => acc) []

/-- Number of consolidated coordinates the query result holds for `id`. -/
def countIn (q : List (String × List Vec3)) (id : String) : Nat :=
  match alookup q id with
  | some cs => cs.length
  | none => 0

/-- Count of `id` in one scene: 1 per Point entry, the member count per
PointSet entry, 0 for unsupported kinds. -/
def objCount (id : String) (data : SceneData) : Nat :=
  (data.map fun io =>
    if io.1 = id then
      match io.2 with
      | .point _ => 1
      | .pointSet ps => ps.length
      | .unsupported _ => 0
    else 0).sum

theorem countIn_addObs (acc : List (String × List Vec3)) (j : String)
    (cs : List Vec3) (id : String) :
    countIn (addObs acc j cs) id =
      countIn acc id + (if j = id then cs.length else 0) := by
  unfold addObs countIn
  by_cases hk : hasKey acc j
  · rw [if_pos hk]
    by_cases hj : j = id
    · subst hj
      rw [alookup_map_self (fun e => e.2 ++ cs) hk]
      obtain ⟨x, hx⟩ := Option.isSome_iff_exists.mp hk
      rw [hx]
      simp
    · rw [alookup_map_ne acc j _ hj]
      simp [hj]
  · rw [if_neg hk, alookup_append]
    by_cases hj : j = id
    · subst hj
      have hnone : alookup acc j = none := by
        cases h : alookup acc j with
        | none => rfl
        | some x => exact absurd (by rw [hasKey, h]; rfl) hk
      rw [hnone]
      simp [alookup]
    · cases h : alookup acc id with
      | none => simp [alookup, Ne.symm hj, hj]
      | some x => simp [hj]

theorem countIn_sceneMatches (data : SceneData) (T : Mat4)
    (acc : List (String × List Vec3)) (id : String) :
    countIn (sceneMatches "*" T data acc) id = countIn acc id + objCount id data := by
  induction data generalizing acc with
  | nil => simp [sceneMatches, objCount]
  | cons io data ih =>
    have hstep : sceneMatches "*" T (io :: data) acc =
        sceneMatches "*" T data
          (if globMatch "*" io.1 then
            match resolveObj T io.2 with
            | some cs => addObs acc io.1 cs
            | none => acc
          else acc) := by
      rw [sceneMatches, List.foldl_cons]
      rfl
    rw [hstep, globMatch_star io.1, if_pos rfl]
    have hobj : objCount id (io :: data) =
        (if io.1 = id then
          match io.2 with
          | .point _ => 1
          | .pointSet ps => ps.length
          | .unsupported _ => 0
        else 0) + objCount id data := by
      rw [objCount, List.map_cons, List.sum_cons]
      rfl
    rw [hobj]
    cases io2 : io.2 with
    | point p =>
      rw [show resolveObj T (SceneObj.point p) = some [applyT T p] from rfl]
      rw [ih, countIn_addObs]
      by_cases hio : io.1 = id <;> simp [hio] <;> omega
    | pointSet ps =>
      rw [show resolveObj T (SceneObj.pointSet ps) = some (ps.map (applyT T))
        from rfl]
      rw [ih, countIn_addObs]
      by_cases hio : io.1 = id <;> simp [hio] <;> omega
    | unsupported k =>
      rw [show resolveObj T (SceneObj.unsupported k) = none from rfl]
      rw [ih]
      by_cases hio : io.1 = id <;> simp [hio]

/-- C8: for every workspace, configuration and identity, the number of
coordinates `View.query("*")` consolidates for that identity equals the sum
of that identity's point counts over every scene connected to the reference
(1 per Point, the member count per PointSet, unsupported kinds and
unreachable scenes contributing nothing). -/
theorem view_query_consolidation_count (ws : WorkspaceScenes) (cfg : TManager)
    (ref id : String) :
    countIn (view_query ws cfg ref "*") id =
      (ws.map fun sd =>
        if (get_transform cfg sd.1 ref).isSome then objCount id sd.2 else 0).sum := by
  suffices h : ∀ acc, countIn (ws.foldl
      (fun acc sd =>
        match get_transform cfg sd.1 ref with
        | some T => sceneMatches "*" T sd.2 acc
        | none => acc) acc) id =
      countIn acc id + (ws.map fun sd =>
        if (get_transform cfg sd.1 ref).isSome then objCount id sd.2 else 0).sum by
    have hq := h []
    rw [view_query]
    rw [hq]
    rw [show countIn [] id = 0 from rfl, Nat.zero_add]
  intro acc
  induction ws generalizing acc with
  | nil => simp [countIn]
  | cons sd ws ih =>
    rw [List.foldl_cons, List.map_cons, List.sum_cons]
    cases hgt : get_transform cfg sd.1 ref with
    | some T =>
      rw [ih, countIn_sceneMatches]
      simp [hgt]
      omega
    | none =>
      rw [ih]
      simp [hgt]
